import Mathlib

/-!
Verification of the walk-forward pipeline execution engine (`fold` / `drift`).

Definitions are shallow embeddings of the Python source under `src/`:
series are lists of rationals (or integers) with explicit positional
indices, fallible code returns `Except String`, and Python's in-place
mutation is modelled by explicit state passing.
-/

namespace DriftSpec

instance {ε α : Type} [DecidableEq ε] [DecidableEq α] : DecidableEq (Except ε α) :=
  fun x y =>
    match x, y with
    | .ok a, .ok b =>
        if h : a = b then isTrue (h ▸ rfl) else isFalse fun hh => h (Except.ok.inj hh)
    | .error e, .error f =>
        if h : e = f then isTrue (h ▸ rfl) else isFalse fun hh => h (Except.error.inj hh)
    | .ok _, .error _ => isFalse fun hh => Except.noConfusion hh
    | .error _, .ok _ => isFalse fun hh => Except.noConfusion hh

/-- Truncating conversion of a rational to an integer, as Python's `int()`
applied to a float: rounds toward zero. -/
def pyInt (q : ℚ) : Int := if 0 ≤ q then ⌊q⌋ else -⌊-q⌋

/-- A window size may be an `int` or a `float`, mirroring `Union[int, float]`
in `splitters.py`. -/
inductive WindowSize where
  | int (n : Int)
  | float (q : ℚ)
deriving DecidableEq, Repr

/-- Embedding of `translate_float_if_needed` (src/src/fold/splitters.py:19-28).
Python checks `window_size > 1 and type(window_size) is int`, then
`window_size < 1 and type(window_size) is float`, else raises `ValueError`. -/
def translate_float_if_needed (window_size : WindowSize) (length : Int) :
    Except String Int :=
  match window_size with
  | .int n =>
      if 1 < n then .ok n
      else .error "Invalid window size, should be either a float less than 1 or an int greater than 1"
  | .float q =>
      if q < 1 then .ok (pyInt (q * (length : ℚ)))
      else .error "Invalid window size, should be either a float less than 1 or an int greater than 1"

/-- `n` evenly spaced integers beginning at `start`, stepping by `step`. -/
def pyRangeAux (start step : Int) : Nat → List Int
  | 0 => []
  | n + 1 => start :: pyRangeAux (start + step) step n

/-- Number of elements of Python's `range(start, stop, step)` for `step ≠ 0`. -/
def pyRangeLen (start stop step : Int) : Nat :=
  if 0 < step then
    (if stop ≤ start then 0 else ((stop - start + step - 1) / step).toNat)
  else
    (if start ≤ stop then 0 else ((start - stop + (-step) - 1) / (-step)).toNat)

/-- Embedding of Python's `range(start, stop, step)`: raises `ValueError`
when `step = 0`, otherwise yields the arithmetic progression. -/
def pyRange (start stop step : Int) : Except String (List Int) :=
  if step = 0 then .error "range() arg 3 must not be zero"
  else .ok (pyRangeAux start step (pyRangeLen start stop step))

/-- The `Split` dataclass (src/src/fold/splitters.py:5-11). -/
structure Split where
  model_index : Int
  train_window_start : Int
  train_window_end : Int
  test_window_start : Int
  test_window_end : Int
deriving DecidableEq, Repr

/-- Constructor fields of `SlidingWindowSplitter` (src/src/fold/splitters.py:31-44). -/
structure SlidingWindowSplitter where
  train_window_size : WindowSize
  step : WindowSize
  embargo : Int := 0
  start : Int := 0
  end_ : Option Int := none
deriving DecidableEq, Repr

/-- Embedding of `SlidingWindowSplitter.splits` (src/src/fold/splitters.py:46-59). -/
def SlidingWindowSplitter.splits (s : SlidingWindowSplitter) (length : Int) :
    Except String (List Split) :=
  let en := s.end_.getD length
  match translate_float_if_needed s.train_window_size length with
  | .error e => .error e
  | .ok window_size =>
    match translate_float_if_needed s.step length with
    | .error e => .error e
    | .ok step =>
      match pyRange (s.start + window_size) en step with
      | .error e => .error e
      | .ok idxs =>
          .ok (idxs.map fun index =>
            { model_index := index
              train_window_start := index - window_size
              train_window_end := index - s.embargo
              test_window_start := index
              test_window_end := min en (index + step) })

/-- Constructor fields of `ExpandingWindowSplitter` (src/src/fold/splitters.py:62-75). -/
structure ExpandingWindowSplitter where
  train_window_size : WindowSize
  step : WindowSize
  embargo : Int := 0
  start : Int := 0
  end_ : Option Int := none
deriving DecidableEq, Repr

/-- Embedding of `ExpandingWindowSplitter.splits` (src/src/fold/splitters.py:77-91). -/
def ExpandingWindowSplitter.splits (s : ExpandingWindowSplitter) (length : Int) :
    Except String (List Split) :=
  let en := s.end_.getD length
  match translate_float_if_needed s.train_window_size length with
  | .error e => .error e
  | .ok window_size =>
    match translate_float_if_needed s.step length with
    | .error e => .error e
    | .ok step =>
      match pyRange (s.start + window_size) en step with
      | .error e => .error e
      | .ok idxs =>
          .ok (idxs.map fun index =>
            { model_index := index
              train_window_start := s.start
              train_window_end := index - s.embargo
              test_window_start := index
              test_window_end := min en (index + step) })

/-- Constructor fields of `SingleWindowSplitter` (src/src/fold/splitters.py:94-101). -/
structure SingleWindowSplitter where
  train_window_size : WindowSize
  embargo : Int := 0
deriving DecidableEq, Repr

/-- Embedding of `SingleWindowSplitter.splits` (src/src/fold/splitters.py:103-114). -/
def SingleWindowSplitter.splits (s : SingleWindowSplitter) (length : Int) :
    Except String (List Split) :=
  match translate_float_if_needed s.train_window_size length with
  | .error e => .error e
  | .ok window_size =>
      .ok [{ model_index := 0
             train_window_start := 0
             train_window_end := window_size - s.embargo
             test_window_start := window_size
             test_window_end := length }]

/-- The three splitter kinds, as one closed union so a single statement can
quantify over all of them. -/
inductive SplitterK where
  | sliding (s : SlidingWindowSplitter)
  | expanding (s : ExpandingWindowSplitter)
  | single (s : SingleWindowSplitter)
deriving DecidableEq, Repr

def SplitterK.embargo : SplitterK → Int
  | .sliding s => s.embargo
  | .expanding s => s.embargo
  | .single s => s.embargo

def SplitterK.splits : SplitterK → Int → Except String (List Split)
  | .sliding s, length => s.splits length
  | .expanding s, length => s.splits length
  | .single s, length => s.splits length

/-- The resolved step of the splitter is a positive row count (trivially true
for the stepless single splitter). -/
def SplitterK.stepPositive : SplitterK → Int → Prop
  | .sliding s, length => ∀ st, translate_float_if_needed s.step length = .ok st → 0 < st
  | .expanding s, length => ∀ st, translate_float_if_needed s.step length = .ok st → 0 < st
  | .single _, _ => True

/-- Pairwise window ordering between consecutive folds. -/
def Split.le (a b : Split) : Prop :=
  a.train_window_start ≤ b.train_window_start ∧
  a.train_window_end ≤ b.train_window_end ∧
  a.test_window_start ≤ b.test_window_start ∧
  a.test_window_end ≤ b.test_window_end

instance : DecidableRel Split.le := fun a b =>
  inferInstanceAs (Decidable (a.train_window_start ≤ b.train_window_start ∧
    a.train_window_end ≤ b.train_window_end ∧
    a.test_window_start ≤ b.test_window_start ∧
    a.test_window_end ≤ b.test_window_end))

theorem mem_pyRangeAux {x start step : Int} {n : Nat}
    (h : x ∈ pyRangeAux start step n) : ∃ k : Nat, x = start + step * k := by
  induction n generalizing start with
  | zero => simp [pyRangeAux] at h
  | succ m ih =>
    rw [pyRangeAux] at h
    rcases List.mem_cons.mp h with h | h
    · exact ⟨0, by simp [h]⟩
    · rcases ih h with ⟨k, hk⟩
      exact ⟨k + 1, by push_cast [hk]; ring⟩

theorem chain'_pyRangeAux (step : Int) :
    ∀ (n : Nat) (start : Int),
      (pyRangeAux start step n).Chain' (fun a b => b = a + step) := by
  intro n
  induction n with
  | zero => intro start; simp [pyRangeAux]
  | succ m ih =>
    intro start
    rw [pyRangeAux, List.chain'_cons']
    refine ⟨?_, ih (start + step)⟩
    intro y hy
    cases m with
    | zero => simp [pyRangeAux] at hy
    | succ k =>
      rw [pyRangeAux] at hy
      simp only [List.head?_cons, Option.mem_some_iff] at hy
      omega

/-- C1 counterexample: a `SlidingWindowSplitter` whose fractional step resolves
to a negative row count (`step = -1/2` against length 4 gives `int(-2)`) returns
folds whose window positions strictly decrease, so the folds are not in
non-decreasing order of their window positions. -/
theorem splitter_order_counterexample :
    SplitterK.splits
      (.sliding { train_window_size := .int 10, step := .float (-1/2) }) 4 =
      .ok [⟨10, 0, 10, 10, 4⟩, ⟨8, -2, 8, 8, 4⟩, ⟨6, -4, 6, 6, 4⟩] ∧
    ¬ ([(⟨10, 0, 10, 10, 4⟩ : Split), ⟨8, -2, 8, 8, 4⟩,
        ⟨6, -4, 6, 6, 4⟩].Chain' Split.le) := by
  constructor
  · have h1 : translate_float_if_needed (.int 10) 4 = .ok 10 := by
      simp [translate_float_if_needed]
    have h2 : translate_float_if_needed (.float (-1/2)) 4 = .ok (-2) := by
      simp only [translate_float_if_needed]
      rw [if_pos (by norm_num)]
      norm_num [pyInt]
    simp only [SplitterK.splits, SlidingWindowSplitter.splits, h1, h2]
    decide
  · intro hc
    obtain ⟨hle, -⟩ := List.chain'_cons.mp hc
    obtain ⟨-, -, h3, -⟩ := hle
    simp at h3

/-- C1 (amended): for every splitter with `embargo ≥ 0` whose resolved step is
a positive row count, every returned `Split` satisfies
`test_window_start ≥ train_window_end` and
`train_window_end ≤ test_window_start - embargo`, and the folds are returned
in non-decreasing order of their window positions. -/
theorem splits_no_leakage_and_ordered (sp : SplitterK) (length : Int)
    (l : List Split) (hemb : 0 ≤ sp.embargo)
    (h : sp.splits length = .ok l) :
    (∀ t ∈ l, t.train_window_end ≤ t.test_window_start ∧
      t.train_window_end ≤ t.test_window_start - sp.embargo) ∧
    (sp.stepPositive length → l.Chain' Split.le) := by
  cases sp with
  | sliding s =>
    simp only [SplitterK.embargo] at hemb ⊢
    simp only [SplitterK.splits, SlidingWindowSplitter.splits] at h
    split at h
    next e heq => exact Except.noConfusion h
    next ws hws =>
      split at h
      next e heq => exact Except.noConfusion h
      next step hst =>
        split at h
        next e heq => exact Except.noConfusion h
        next idxs hr =>
          injection h with h
          subst h
          simp only [pyRange] at hr
          split at hr
          next => exact Except.noConfusion hr
          next =>
            injection hr with hr
            subst hr
            constructor
            · intro t ht
              rcases List.mem_map.mp ht with ⟨idx, hidx, rfl⟩
              exact ⟨(by omega : idx - s.embargo ≤ idx),
                (by omega : idx - s.embargo ≤ idx - s.embargo)⟩
            · intro hstep
              simp only [SplitterK.stepPositive] at hstep
              have hpos : 0 < step := hstep step hst
              rw [List.chain'_map]
              refine (chain'_pyRangeAux step _ _).imp ?_
              intro a b hab
              refine ⟨(by omega : a - ws ≤ b - ws),
                (by omega : a - s.embargo ≤ b - s.embargo),
                (by omega : a ≤ b), ?_⟩
              exact min_le_min le_rfl (by omega)
  | expanding s =>
    simp only [SplitterK.embargo] at hemb ⊢
    simp only [SplitterK.splits, ExpandingWindowSplitter.splits] at h
    split at h
    next e heq => exact Except.noConfusion h
    next ws hws =>
      split at h
      next e heq => exact Except.noConfusion h
      next step hst =>
        split at h
        next e heq => exact Except.noConfusion h
        next idxs hr =>
          injection h with h
          subst h
          simp only [pyRange] at hr
          split at hr
          next => exact Except.noConfusion hr
          next =>
            injection hr with hr
            subst hr
            constructor
            · intro t ht
              rcases List.mem_map.mp ht with ⟨idx, hidx, rfl⟩
              exact ⟨(by omega : idx - s.embargo ≤ idx),
                (by omega : idx - s.embargo ≤ idx - s.embargo)⟩
            · intro hstep
              simp only [SplitterK.stepPositive] at hstep
              have hpos : 0 < step := hstep step hst
              rw [List.chain'_map]
              refine (chain'_pyRangeAux step _ _).imp ?_
              intro a b hab
              refine ⟨(le_refl s.start),
                (by omega : a - s.embargo ≤ b - s.embargo),
                (by omega : a ≤ b), ?_⟩
              exact min_le_min le_rfl (by omega)
  | single s =>
    simp only [SplitterK.embargo] at hemb ⊢
    simp only [SplitterK.splits, SingleWindowSplitter.splits] at h
    split at h
    next e heq => exact Except.noConfusion h
    next ws hws =>
      injection h with h
      subst h
      refine ⟨?_, fun _ => List.chain'_singleton _⟩
      intro t ht
      rcases List.mem_singleton.mp ht with rfl
      exact ⟨(by omega : ws - s.embargo ≤ ws),
        (by omega : ws - s.embargo ≤ ws - s.embargo)⟩

/-- Witness for C1's amended theorem: a sliding splitter with window 3,
step 2, embargo 1 over length 10. -/
theorem splits_no_leakage_and_ordered_witness :
    ((⟨3, 0, 2, 3, 5⟩ : Split).train_window_end ≤
      (⟨3, 0, 2, 3, 5⟩ : Split).test_window_start) ∧
    ([(⟨3, 0, 2, 3, 5⟩ : Split), ⟨5, 2, 4, 5, 7⟩, ⟨7, 4, 6, 7, 9⟩,
      ⟨9, 6, 8, 9, 10⟩].Chain' Split.le) := by
  have h := splits_no_leakage_and_ordered
    (.sliding { train_window_size := .int 3, step := .int 2, embargo := 1 }) 10
    [⟨3, 0, 2, 3, 5⟩, ⟨5, 2, 4, 5, 7⟩, ⟨7, 4, 6, 7, 9⟩, ⟨9, 6, 8, 9, 10⟩]
    (by decide)
    (by decide)
  exact ⟨(h.1 _ (by decide)).1,
    h.2 (by intro st hst; simp [translate_float_if_needed] at hst; omega)⟩

/-- C9 counterexample: `translate_float_if_needed` does not return the integer
row count `1` unchanged; `n = 1` fails both branch guards and raises
`ValueError`, so the claim "any integer row count n ≥ 1 is returned unchanged"
is false at `n = 1` (length 10). -/
theorem translate_int_one_rejected :
    translate_float_if_needed (.int 1) 10 ≠ .ok 1 := by
  simp [translate_float_if_needed]

/-- C9 (amended): `translate_float_if_needed` returns any integer row count
`n ≥ 2` unchanged, resolves any fractional size `0 < f < 1` to `int(f * L)`,
and rejects the integer `1` with a `ValueError`. -/
theorem translate_float_if_needed_spec (L : Int) :
    (∀ n : Int, 2 ≤ n → translate_float_if_needed (.int n) L = .ok n) ∧
    (∀ q : ℚ, 0 < q → q < 1 →
      translate_float_if_needed (.float q) L = .ok (pyInt (q * (L : ℚ)))) ∧
    (∃ msg, translate_float_if_needed (.int 1) L = .error msg) := by
  refine ⟨?_, ?_, ?_⟩
  · intro n hn
    simp only [translate_float_if_needed]
    rw [if_pos (by omega)]
  · intro q h0 h1
    simp only [translate_float_if_needed]
    rw [if_pos h1]
  · refine ⟨"Invalid window size, should be either a float less than 1 or an int greater than 1", ?_⟩
    simp only [translate_float_if_needed]
    rw [if_neg (by omega)]

/-- Witness for C9's amended theorem at concrete inputs. -/
theorem translate_float_if_needed_spec_witness :
    translate_float_if_needed (.int 5) 10 = .ok 5 ∧
    translate_float_if_needed (.float (1/2)) 10 = .ok 5 := by
  refine ⟨(translate_float_if_needed_spec 10).1 5 (by norm_num), ?_⟩
  have h := (translate_float_if_needed_spec 10).2.1 (1/2) (by norm_num) (by norm_num)
  rw [h]
  norm_num [pyInt]

/-! ## The online inner loop (`_process_with_inner_loop`) -/

/-- The Transformation capability interface as consumed by the online inner
loop, over an opaque fitted-state type `σ`, feature rows `α`, target values
`β` and per-row outputs `γ`.  `transform` is pure; `update` returns the new
fitted state.  The two memory hooks are modelled from the spec (section 4.4),
since `fold/loop/memory.py` is not under `src/`: `preprocessX` materialises
the stored lookback history in front of the incoming feature row and depends
only on the node's state and that row (never on the row's target);
`preprocessY` does the same for the target; `storeMemory` refreshes the
stored trailing history (`postprocess_X_y_into_memory_`). -/
structure OnlineLeaf (σ α β γ : Type) where
  preprocessX : σ → α → List α
  preprocessY : σ → β → List β
  transform : σ → List α → γ
  update : σ → List α → List β → σ
  storeMemory : σ → List α → List β → σ

/-- Embedding of `transform_row`
(src/src/fold/loop/process/process_inner_loop.py:28-53): attach memory, then
transform the row, and only then update the fitted state with the row's
target and refresh memory.  Returns the row's output (`result.loc[X_row.index]`)
and the transformation's state after the row. -/
def transform_row (L : OnlineLeaf σ α β γ) (s : σ) (x : α) (y : β) : γ × σ :=
  let x_row_with_memory := L.preprocessX s x
  let y_row_with_memory := L.preprocessY s y
  let result := L.transform s x_row_with_memory
  let s1 := L.update s x_row_with_memory y_row_with_memory
  let s2 := L.storeMemory s1 x_row_with_memory y_row_with_memory
  (result, s2)

/-- The row-by-row replay of `_process_with_inner_loop`: each row is
transformed and then learned from, in index order, the outputs concatenated
in the original order.  Returns the final state and the per-row outputs. -/
def processInnerRows (L : OnlineLeaf σ α β γ) : σ → List (α × β) → σ × List γ
  | s, [] => (s, [])
  | s, (x, y) :: rest =>
      let r := transform_row L s x y
      let tail := processInnerRows L r.2 rest
      (tail.1, r.1 :: tail.2)

/-- Return value of `_process_with_inner_loop`.  The Python function is
annotated `Tuple[Transformation, X, Artifact]`, but its empty-batch branch
returns the 2-tuple `(pd.DataFrame(), pd.DataFrame())`, so the embedding
distinguishes both shapes. -/
inductive InnerLoopResult (σ γ : Type) where
  | pair (x artifacts : List γ)
  | triple (t : σ) (x : List γ) (artifacts : List γ)
deriving DecidableEq

def InnerLoopResult.outputs : InnerLoopResult σ γ → List γ
  | .pair x _ => x
  | .triple _ x _ => x

def InnerLoopResult.isTriple : InnerLoopResult σ γ → Bool
  | .pair _ _ => false
  | .triple _ _ _ => true

/-- Embedding of `_process_with_inner_loop`
(src/src/fold/loop/process/process_inner_loop.py:15-68): an empty batch
returns the 2-tuple of two empty frames; otherwise the 3-tuple of the
transformation (mutated through all rows), the concatenated per-row outputs,
and an empty artifact frame. -/
def _process_with_inner_loop (L : OnlineLeaf σ α β γ) (s : σ)
    (rows : List (α × β)) : InnerLoopResult σ γ :=
  if rows.length = 0 then .pair [] []
  else
    let r := processInnerRows L s rows
    .triple r.1 r.2 []

theorem processInnerRows_agree (L : OnlineLeaf σ α β γ) :
    ∀ (t : Nat) (s : σ) (xs : List α) (ys1 ys2 : List β),
      ys1.length = xs.length → ys2.length = xs.length →
      (∀ i, i < t → ys1[i]? = ys2[i]?) →
      ((processInnerRows L s (xs.zip ys1)).2)[t]? =
        ((processInnerRows L s (xs.zip ys2)).2)[t]? := by
  intro t
  induction t with
  | zero =>
    intro s xs ys1 ys2 h1 h2 _
    cases xs with
    | nil => rfl
    | cons x xs' =>
      cases ys1 with
      | nil => simp at h1
      | cons y1 ys1' =>
        cases ys2 with
        | nil => simp at h2
        | cons y2 ys2' =>
          simp [processInnerRows, transform_row]
  | succ n ih =>
    intro s xs ys1 ys2 h1 h2 hagree
    cases xs with
    | nil => rfl
    | cons x xs' =>
      cases ys1 with
      | nil => simp at h1
      | cons y1 ys1' =>
        cases ys2 with
        | nil => simp at h2
        | cons y2 ys2' =>
          have hy : y1 = y2 := by
            have := hagree 0 (by omega)
            simpa using this
          subst hy
          simp only [List.zip_cons_cons, processInnerRows]
          simp only [List.getElem?_cons_succ]
          exact ih _ xs' ys1' ys2' (by simpa using h1) (by simpa using h2)
            (fun i hi => by
              have := hagree (i + 1) (by omega)
              simpa using this)

/-- C2: online predict-before-learn.  For an online-mode leaf replayed
row-by-row by `_process_with_inner_loop`, the prediction produced for row `t`
does not depend on the target value at row `t`: replaying the same feature
rows against any two target series that agree strictly before row `t` yields
identical outputs at row `t`, because `transform` runs on row `t` before
`update` sees row `t`'s target. -/
theorem online_predict_before_learn (L : OnlineLeaf σ α β γ) (s : σ)
    (xs : List α) (ys1 ys2 : List β) (t : Nat)
    (h1 : ys1.length = xs.length) (h2 : ys2.length = xs.length)
    (hagree : ∀ i, i < t → ys1[i]? = ys2[i]?) :
    (_process_with_inner_loop L s (xs.zip ys1)).outputs[t]? =
      (_process_with_inner_loop L s (xs.zip ys2)).outputs[t]? := by
  simp only [_process_with_inner_loop]
  have hz1 : (xs.zip ys1).length = xs.length := by
    simp [List.length_zip, h1]
  have hz2 : (xs.zip ys2).length = xs.length := by
    simp [List.length_zip, h2]
  by_cases hx : xs.length = 0
  · rw [if_pos (by omega), if_pos (by omega)]
  · rw [if_neg (by omega), if_neg (by omega)]
    simp only [InnerLoopResult.outputs]
    exact processInnerRows_agree L t s xs ys1 ys2 h1 h2 hagree

/-- Witness for C2's theorem:  two rows with targets differing at the second
row produce the same output at row 1 for a concrete running-sum leaf. -/
theorem online_predict_before_learn_witness :
    (_process_with_inner_loop
      ({ preprocessX := fun _ x => [x], preprocessY := fun _ y => [y],
         transform := fun s xm => s + xm.foldl (· + ·) 0,
         update := fun s _ ym => s + ym.foldl (· + ·) 0,
         storeMemory := fun s _ _ => s } : OnlineLeaf Int Int Int Int)
      (0 : Int) (([10, 20] : List Int).zip ([1, 2] : List Int))).outputs[1]? =
    (_process_with_inner_loop
      ({ preprocessX := fun _ x => [x], preprocessY := fun _ y => [y],
         transform := fun s xm => s + xm.foldl (· + ·) 0,
         update := fun s _ ym => s + ym.foldl (· + ·) 0,
         storeMemory := fun s _ _ => s } : OnlineLeaf Int Int Int Int)
      (0 : Int) (([10, 20] : List Int).zip ([1, 5] : List Int))).outputs[1]? :=
  online_predict_before_learn _ 0 [10, 20] [1, 2] [1, 5] 1 (by decide) (by decide)
    (fun i hi => by
      have h0 : i = 0 := by omega
      subst h0
      rfl)

/-- C4: evaluating `_process_with_inner_loop` at the failing input (an empty
batch) shows the code slip: the function's annotated return shape is
`(node, X, artifacts)`, but the empty-batch branch returns a 2-tuple with no
node at all, so the engine does not return an empty result of the same shape
as a normal result. -/
theorem empty_batch_returns_malformed_pair :
    _process_with_inner_loop
      { preprocessX := fun _ x => [x], preprocessY := fun _ y => [y],
        transform := fun s _ => s, update := fun s _ _ => s,
        storeMemory := fun s _ _ => s }
      (0 : Int) ([] : List (Int × Int)) = .pair [] [] ∧
    (_process_with_inner_loop
      { preprocessX := fun _ x => [x], preprocessY := fun _ y => [y],
        transform := fun s _ => s, update := fun s _ _ => s,
        storeMemory := fun s _ _ => s }
      (0 : Int) ([] : List (Int × Int))).isTriple = false := by
  exact ⟨rfl, rfl⟩

/-! ## Node-boundary invariant (`__post_checks` / `recursively_transform`) -/

/-- A time-indexed table: row labels paired with row values.  Only the index
and the row count matter for the boundary invariant. -/
abbrev Tbl := List (Nat × ℚ)

/-- A table's row index (`DataFrame.index`). -/
def Tbl.index (t : Tbl) : List Nat := t.map Prod.fst

/-- The engine's node kinds as dispatched by `recursively_transform`
(src/src/fold/loop/common.py:87-187): a leaf transformation with opaque
fitted state, a composite with abstract per-child preprocess hooks and
abstract result/artifact merge hooks, and a list node run in sequence. -/
inductive PNode (σ : Type) where
  | leaf (s : σ)
  | comp (pre : Nat → Tbl → Tbl) (preA : Nat → Tbl → Tbl)
      (merge : List Tbl → Tbl) (mergeA : List Tbl → Tbl)
      (children : List (PNode σ))
  | plist (children : List (PNode σ))

/-- Embedding of `__post_checks` (src/src/fold/loop/common.py:61-66): assert
`X.shape[0] == artifacts.shape[0]`, then `X.index.equals(artifacts.index)`;
an `AssertionError` propagates otherwise. -/
def __post_checks (t : PNode σ) (X artifacts : Tbl) :
    Except String (PNode σ × Tbl × Tbl) :=
  if X.length = artifacts.length then
    if Tbl.index X = Tbl.index artifacts then .ok (t, X, artifacts)
    else .error "AssertionError"
  else .error "AssertionError"

mutual

/-- Embedding of `recursively_transform` (src/src/fold/loop/common.py:69-193)
over an abstract leaf processor `f` (which stands for the stage-specific
`_process_with_inner_loop` / `_process_minibatch_transformation` dispatch):
every branch wraps its result in `__post_checks` exactly as the source does. -/
def recursively_transform (f : σ → Tbl → Tbl → σ × Tbl × Tbl) :
    PNode σ → Tbl → Tbl → Except String (PNode σ × Tbl × Tbl)
  | .leaf s, X, a =>
      let r := f s X a
      __post_checks (.leaf r.1) r.2.1 r.2.2
  | .plist cs, X, a => do
      let r ← processList f cs X a
      __post_checks (.plist r.1) r.2.1 r.2.2
  | .comp pre preA merge mergeA cs, X, a => do
      let rs ← processChildren f pre preA cs X a 0
      __post_checks (.comp pre preA merge mergeA rs.1) (merge rs.2.1) (mergeA rs.2.2)

/-- The list-node fold: output of child `i` is the input of child `i + 1`. -/
def processList (f : σ → Tbl → Tbl → σ × Tbl × Tbl) :
    List (PNode σ) → Tbl → Tbl → Except String (List (PNode σ) × Tbl × Tbl)
  | [], X, a => .ok ([], X, a)
  | c :: cs, X, a => do
      let r ← recursively_transform f c X a
      let rest ← processList f cs r.2.1 r.2.2
      .ok (r.1 :: rest.1, rest.2.1, rest.2.2)

/-- The composite fan-out: child `i` runs on its preprocessed view of the
parent's input; the per-child results and artifacts are collected in index
order. -/
def processChildren (f : σ → Tbl → Tbl → σ × Tbl × Tbl) (pre preA : Nat → Tbl → Tbl) :
    List (PNode σ) → Tbl → Tbl → Nat →
      Except String (List (PNode σ) × List Tbl × List Tbl)
  | [], _, _, _ => .ok ([], [], [])
  | c :: cs, X, a, i => do
      let r ← recursively_transform f c (pre i X) (preA i a)
      let rest ← processChildren f pre preA cs X a (i + 1)
      .ok (r.1 :: rest.1, r.2.1 :: rest.2.1, r.2.2 :: rest.2.2)

end

theorem except_bind_ok {A B : Type} {x : Except String A} {g : A → Except String B}
    {b : B} (h : (x >>= g) = .ok b) : ∃ a, x = .ok a ∧ g a = .ok b := by
  cases x with
  | error e => simp [Bind.bind, Except.bind] at h
  | ok a => exact ⟨a, rfl, by simpa [Bind.bind, Except.bind] using h⟩

theorem __post_checks_ok {σ : Type} {t t' : PNode σ} {X a X' a' : Tbl}
    (h : __post_checks t X a = .ok (t', X', a')) :
    X'.length = a'.length ∧ Tbl.index X' = Tbl.index a' := by
  unfold __post_checks at h
  split at h
  · split at h
    · simp only [Except.ok.injEq, Prod.mk.injEq] at h
      obtain ⟨-, hX, ha⟩ := h
      subst hX
      subst ha
      exact ⟨‹_›, ‹_›⟩
    · exact Except.noConfusion h
  · exact Except.noConfusion h

/-- C6: at every node boundary, for every node kind and every leaf processor
(hence every stage), a value returned by `recursively_transform` has its
transformed `X` and artifacts with the same number of rows and equal indices. -/
theorem recursively_transform_index_invariant {σ : Type}
    (f : σ → Tbl → Tbl → σ × Tbl × Tbl) (n : PNode σ) (X a : Tbl)
    (t : PNode σ) (X' a' : Tbl)
    (h : recursively_transform f n X a = .ok (t, X', a')) :
    X'.length = a'.length ∧ Tbl.index X' = Tbl.index a' := by
  cases n with
  | leaf s =>
    rw [recursively_transform] at h
    exact __post_checks_ok h
  | plist cs =>
    rw [recursively_transform] at h
    rcases except_bind_ok h with ⟨r, -, h2⟩
    exact __post_checks_ok h2
  | comp pre preA merge mergeA cs =>
    rw [recursively_transform] at h
    rcases except_bind_ok h with ⟨r, -, h2⟩
    exact __post_checks_ok h2

/-- Witness for C6's theorem: a two-leaf list node over an identity leaf
processor on a concrete two-row table. -/
theorem recursively_transform_index_invariant_witness :
    List.length [((0 : Nat), (1 : ℚ)), (1, 2)] =
        List.length [((0 : Nat), (5 : ℚ)), (1, 6)] ∧
      Tbl.index [((0 : Nat), (1 : ℚ)), (1, 2)] =
        Tbl.index [((0 : Nat), (5 : ℚ)), (1, 6)] := by
  refine recursively_transform_index_invariant
    (σ := Unit) (fun s X _ => (s, X, [((0 : Nat), (5 : ℚ)), (1, 6)]))
    (.plist [.leaf ()]) [((0 : Nat), (1 : ℚ)), (1, 2)]
    [((0 : Nat), (5 : ℚ)), (1, 6)] (.plist [.leaf ()])
    [((0 : Nat), (1 : ℚ)), (1, 2)] [((0 : Nat), (5 : ℚ)), (1, 6)] ?_
  simp only [recursively_transform, processList.eq_def, __post_checks]
  rfl

/-! ## Backtesting (`backtest` / `_backtest_on_window`) -/

/-- The `Fold` record used by the loop drivers (spec section 3; constructed in
src/src/fold/loop/training.py:162-171). -/
structure Fold where
  order : Int
  model_index : Nat
  train_window_start : Int
  train_window_end : Int
  update_window_start : Int
  update_window_end : Int
  test_window_start : Int
  test_window_end : Int
deriving DecidableEq, Repr

/-- Embedding of `_backtest_on_window` (src/src/fold/loop/common.py:595-628)
restricted to its effect on the trained-pipeline store.  `trained` maps each
`model_index` to its fitted pipeline snapshot; `run` is the deterministic
engine call (`recursively_transform` at `stage=update_online_only` on the
fold's memory-extended test slice), returning the pipeline state after the
run and the window's predictions.  `deepcopy_pipelines` is absent from
`src/`, so copying is modelled from the spec: with `mutate=False` the run
works on a deep copy, severing aliasing, so the run's state updates never
reach the store; with `mutate=True` the aliased stored snapshot is updated in
place. -/
def _backtest_on_window {σ : Type} (run : Fold → σ → σ × List ℚ) (mutate : Bool)
    (trained : Nat → σ) (split : Fold) : (Nat → σ) × List ℚ :=
  let current := trained split.model_index
  let r := run split current
  if mutate then
    (fun i => if i = split.model_index then r.1 else trained i, r.2)
  else (trained, r.2)

/-- Embedding of `backtest` (src/src/fold/loop/backtesting.py:19-85): run
`_backtest_on_window` over every fold of the splitter and concatenate the
per-window predictions in fold order. -/
def backtest {σ : Type} (run : Fold → σ → σ × List ℚ) (mutate : Bool) :
    (Nat → σ) → List Fold → (Nat → σ) × List ℚ
  | trained, [] => (trained, [])
  | trained, split :: rest =>
      let r := _backtest_on_window run mutate trained split
      let rr := backtest run mutate r.1 rest
      (rr.1, r.2 ++ rr.2)

theorem backtest_no_mutate_preserves_store {σ : Type}
    (run : Fold → σ → σ × List ℚ) (trained : Nat → σ) (splits : List Fold) :
    (backtest run false trained splits).1 = trained := by
  induction splits generalizing trained with
  | nil => rfl
  | cons split rest ih =>
    rw [backtest]
    exact ih trained

/-- C5: calling `backtest` twice with `mutate = False` on the same trained
pipelines and the same data yields identical predictions both times, and the
trained-pipeline store is unchanged by each call. -/
theorem backtest_idempotent_without_mutate {σ : Type}
    (run : Fold → σ → σ × List ℚ) (trained : Nat → σ) (splits : List Fold) :
    (backtest run false trained splits).1 = trained ∧
    (backtest run false ((backtest run false trained splits).1) splits).2 =
      (backtest run false trained splits).2 := by
  refine ⟨backtest_no_mutate_preserves_store run trained splits, ?_⟩
  rw [backtest_no_mutate_preserves_store run trained splits]

/-! ## Fail-fast configuration checks in `train` -/

/-- The training methods of `fold.loop.types.TrainMethod` (the module is not
under `src/`; the three member names appear in src/src/fold/loop/training.py
and its tests). -/
inductive TrainMethod where
  | parallel
  | parallel_with_search
  | sequential
deriving DecidableEq, Repr

/-- `isinstance(splitter, SlidingWindowSplitter)`. -/
def SplitterK.isSliding : SplitterK → Bool
  | .sliding _ => true
  | _ => false

/-- Sequential fold training: fold `i + 1` resumes from fold `i`'s pipeline
(the `else` branch of `train`, src/src/fold/loop/training.py:120-135). -/
def trainSequentially {π : Type} (pw : Split → Bool → π → π) :
    π → List Split → List π
  | _, [] => []
  | p, s :: rest =>
      let p1 := pw s false p
      p1 :: trainSequentially pw p1 rest

/-- The three `train_method` branches of `train`
(src/src/fold/loop/training.py:79-135), over an abstract per-window processor
`pw split never_update pipeline` (`process_pipeline_window`). -/
def trainFolds {π : Type} (pw : Split → Bool → π → π) (pipeline : π)
    (splits : List Split) : TrainMethod → List π
  | .parallel_with_search =>
      if 1 < splits.length then
        match splits with
        | [] => []
        | s0 :: rest =>
            let p0 := pw s0 true pipeline
            p0 :: rest.map fun s => pw s false p0
      else trainSequentially pw pipeline splits
  | .parallel =>
      if 1 < splits.length then splits.map fun s => pw s true pipeline
      else trainSequentially pw pipeline splits
  | .sequential => trainSequentially pw pipeline splits

/-- Embedding of `train` (src/src/fold/loop/training.py:24-144): the
sliding-splitter/train-method compatibility assert runs first, then the
splits are generated and the zero-fold check raises `ValueError`, and only
then is any window processed. -/
def train {π : Type} (pw : Split → Bool → π → π) (pipeline : π)
    (sp : SplitterK) (length : Int) (train_method : TrainMethod) :
    Except String (List π) :=
  if sp.isSliding = true ∧ train_method ≠ .parallel then
    .error "SlidingWindowSplitter is conceptually incompatible with TrainMethod.sequential"
  else
    match sp.splits length with
    | .error e => .error e
    | .ok splits =>
        if splits.length = 0 then
          .error "No splits were generated by the Splitter."
        else .ok (trainFolds pw pipeline splits train_method)

/-- C7: `train` fails fast on an invalid configuration — zero generated folds,
or a sliding splitter paired with a non-parallel train method — raising before
any fold executes: the result is an error and is the same for every window
processor, so no pipeline is ever fitted. -/
theorem train_fails_fast_on_invalid_config {π : Type}
    (pw : Split → Bool → π → π) (pipeline : π) (sp : SplitterK) (length : Int)
    (train_method : TrainMethod)
    (hbad : sp.splits length = .ok [] ∨
      (sp.isSliding = true ∧ train_method ≠ .parallel)) :
    (∃ msg, train pw pipeline sp length train_method = .error msg) ∧
    (∀ pw2 : Split → Bool → π → π,
      train pw2 pipeline sp length train_method =
        train pw pipeline sp length train_method) := by
  by_cases hs : sp.isSliding = true ∧ train_method ≠ .parallel
  · constructor
    · exact ⟨_, by rw [train, if_pos hs]⟩
    · intro pw2
      rw [train, if_pos hs, train, if_pos hs]
  · rcases hbad with hz | hs2
    · constructor
      · refine ⟨"No splits were generated by the Splitter.", ?_⟩
        rw [train, if_neg hs, hz]
        rfl
      · intro pw2
        rw [train, if_neg hs, hz, train, if_neg hs, hz]
        rfl
    · exact absurd hs2 hs

/-- Witness for C7's theorem: a sliding splitter with the sequential train
method fails fast at a concrete input. -/
theorem train_fails_fast_on_invalid_config_witness :
    (∃ msg, train (fun _ _ (p : Int) => p) 0
      (.sliding { train_window_size := .int 3, step := .int 2 }) 10
      .sequential = .error msg) ∧
    (∀ pw2 : Split → Bool → Int → Int,
      train pw2 0 (.sliding { train_window_size := .int 3, step := .int 2 }) 10
        .sequential =
      train (fun _ _ (p : Int) => p) 0
        (.sliding { train_window_size := .int 3, step := .int 2 }) 10
        .sequential) :=
  train_fails_fast_on_invalid_config (fun _ _ p => p) 0
    (.sliding { train_window_size := .int 3, step := .int 2 }) 10 .sequential
    (Or.inr ⟨rfl, by decide⟩)

/-! ## Inference (`infer`) -/

/-- The deployable pipeline card consumed by `infer`: an optional
preprocessing pipeline and the main pipeline. -/
structure DeployablePipelineCard (π : Type) where
  preprocessing : Option π
  pipeline : π

/-- Embedding of `infer` (src/src/fold/loop/inference.py:11-48) over an
abstract stage-`infer` engine run `runi`.  The source guards
`if pipelinecard.preprocessing is None:` and, in that branch, passes
`pipelinecard.preprocessing` (that is, `None`) to `recursively_transform`,
which raises `ValueError` for a `None` pipeline; when preprocessing is
present, the guard is skipped and the main pipeline runs on the original,
unpreprocessed `X`. -/
def infer {π α : Type} (runi : π → List α → List α) (maximum_memory_size : Nat)
    (card : DeployablePipelineCard π) (X : List α) : Except String (List α) :=
  if X.length ≤ maximum_memory_size then
    .error "X must be larger than maximum_memory_size rows"
  else
    match card.preprocessing with
    | none => .error "None is not a Fold Transformation"
    | some _ => .ok (runi card.pipeline X)

/-- C10: evaluating `infer` at the failing inputs shows the inverted guard:
with no preprocessing the call raises `ValueError` instead of running only
the main pipeline, and with a preprocessing pipeline present (id 7, which
would add 7 to every value) the preprocessing is skipped entirely — the main
pipeline (id 0) sees the raw input and returns `[1]`, not `[8]`. -/
theorem infer_inverted_preprocessing_guard :
    infer (fun p (x : List Int) => x.map (· + p)) 0
      { preprocessing := none, pipeline := (0 : Int) } [1] =
      .error "None is not a Fold Transformation" ∧
    infer (fun p (x : List Int) => x.map (· + p)) 0
      { preprocessing := some (7 : Int), pipeline := (0 : Int) } [1] =
      .ok [1] := by
  exact ⟨rfl, rfl⟩

/-! ## The `Difference` transformation -/

/-- The fitted state of `Difference`
(src/src/fold/transformations/difference.py:57-64): the lag and the stored
first `lag` rows of the series it was fit on. -/
structure DifferenceState where
  lag : Nat
  first_values_X : List ℚ
deriving DecidableEq, Repr

/-- `pandas.Series.diff(lag)`: position `p` holds `X[p] - X[p - lag]`, and the
first `lag` positions hold `NaN` (modelled as `none`). -/
def diffSeries (lag : Nat) (X : List ℚ) : List (Option ℚ) :=
  (List.range X.length).map fun p =>
    if p < lag then none else some (X.getD p 0 - X.getD (p - lag) 0)

namespace Difference

/-- Embedding of `Difference.fit`
(src/src/fold/transformations/difference.py:66-72): store `X.iloc[:lag]`. -/
def fit (lag : Nat) (X : List ℚ) : DifferenceState :=
  { lag := lag, first_values_X := X.take lag }

/-- Embedding of `Difference.update`
(src/src/fold/transformations/difference.py:74-80): replace the stored rows
with the first `lag` rows of the update batch. -/
def update (st : DifferenceState) (X : List ℚ) : DifferenceState :=
  { st with first_values_X := X.take st.lag }

/-- Embedding of `Difference.transform`
(src/src/fold/transformations/difference.py:88-96): in-sample it is
`X.diff(lag)`; out-of-sample it prepends the stored first values, diffs the
concatenation, and drops the first `lag` rows. -/
def transform (st : DifferenceState) (X : List ℚ) (in_sample : Bool) :
    List (Option ℚ) :=
  if in_sample then diffSeries st.lag X
  else (diffSeries st.lag (st.first_values_X ++ X)).drop st.lag

/-- The value at position `p` after `X.iloc[:lag] = to_series(first_values_X)`:
the seed of the strided cumulative sums of `inverse_transform`. -/
def seeded (st : DifferenceState) (Z : List (Option ℚ)) : Nat → ℚ :=
  fun p =>
    if p < st.lag then st.first_values_X.getD p 0 else (Z.getD p none).getD 0

/-- The final value at position `p` after the in-place loop
`for i in range(lag): X.iloc[i::lag] = X.iloc[i::lag].cumsum()`: the strides
are disjoint, so each position accumulates exactly the prefix of its own
residue class (and the loop body never runs when `lag = 0`). -/
def stridedCumsum (X1 : Nat → ℚ) (lag : Nat) (p : Nat) : ℚ :=
  if h : 0 < lag ∧ lag ≤ p then X1 p + stridedCumsum X1 lag (p - lag) else X1 p
termination_by p
decreasing_by omega

/-- Embedding of `Difference.inverse_transform`
(src/src/fold/transformations/difference.py:98-103). -/
def inverse_transform (st : DifferenceState) (Z : List (Option ℚ)) : List ℚ :=
  (List.range Z.length).map (stridedCumsum (seeded st Z) st.lag)

end Difference

theorem stridedCumsum_diff (lag : Nat) (X : List ℚ) (hlag : 0 < lag)
    (hlen : lag ≤ X.length) :
    ∀ p, p < X.length →
      Difference.stridedCumsum
        (Difference.seeded (Difference.fit lag X) (diffSeries lag X)) lag p =
        X.getD p 0 := by
  intro p
  induction p using Nat.strong_induction_on with
  | _ p ih =>
    intro hp
    rw [Difference.stridedCumsum]
    by_cases hcase : lag ≤ p
    · rw [dif_pos ⟨hlag, hcase⟩]
      rw [ih (p - lag) (by omega) (by omega)]
      have hseed : Difference.seeded (Difference.fit lag X) (diffSeries lag X) p =
          X.getD p 0 - X.getD (p - lag) 0 := by
        simp only [Difference.seeded, Difference.fit]
        rw [if_neg (by omega)]
        simp only [List.getD_eq_getElem?_getD, diffSeries, List.getElem?_map,
          List.getElem?_range hp, Option.map_some', Option.getD_some]
        rw [if_neg (by omega)]
        rfl
      rw [hseed]
      ring
    · rw [dif_neg (by omega)]
      simp only [Difference.seeded, Difference.fit]
      rw [if_pos (by omega)]
      rw [List.getD_eq_getElem?_getD, List.getD_eq_getElem?_getD]
      rw [List.getElem?_take, if_pos (by omega)]

/-- C8: round-trip invertibility of the `Difference` leaf.  For a lag-`L`
`Difference` fit on `X` (any `X` with at least `L` rows),
`inverse_transform (transform X in_sample)` recovers `X` exactly: the
strided cumulative-sum reconstruction seeded with the stored first `L` values
telescopes back to the original series. -/
theorem difference_roundtrip (lag : Nat) (X : List ℚ) (hlag : 0 < lag)
    (hlen : lag ≤ X.length) :
    Difference.inverse_transform (Difference.fit lag X)
      (Difference.transform (Difference.fit lag X) X true) = X := by
  have hZlen : (Difference.transform (Difference.fit lag X) X true).length =
      X.length := by
    simp [Difference.transform, Difference.fit, diffSeries]
  refine List.ext_getElem ?_ ?_
  · simp [Difference.inverse_transform, hZlen]
  · intro i h1 h2
    simp only [Difference.inverse_transform, hZlen] at h1 ⊢
    rw [List.getElem_map, List.getElem_range]
    have hi : i < X.length := by simpa [hZlen] using h1
    have := stridedCumsum_diff lag X hlag hlen i (by simpa using hi)
    simp only [Difference.transform, Difference.fit, if_pos] at this ⊢
    rw [this]
    exact List.getD_eq_getElem X 0 h2

/-- Witness for C8's theorem: lag 2 on the series `[3, 5, 10, 11]`. -/
theorem difference_roundtrip_witness :
    Difference.inverse_transform (Difference.fit 2 [3, 5, 10, 11])
      (Difference.transform (Difference.fit 2 [3, 5, 10, 11]) [3, 5, 10, 11]
        true) = [3, 5, 10, 11] :=
  difference_roundtrip 2 [3, 5, 10, 11] (by norm_num) (by norm_num)

/-! ## Backtesting a single-step `Difference` leaf (concrete scenario) -/

/-- `df.iloc[a:b]` on labeled rows. -/
def ilocSlice (rows : Tbl) (a b : Nat) : Tbl := (rows.drop a).take (b - a)

/-- `result.loc[X.index[ts]:]`: keep the rows labeled `ts` or later (row
labels are row positions throughout this scenario). -/
def locFrom (rows : List (Nat × Option ℚ)) (ts : Nat) : List (Nat × Option ℚ) :=
  rows.filter fun r => decide (ts ≤ r.1)

/-- The `Difference` state together with the row labels of its stored
`first_values_X` frame. -/
structure LabeledDifferenceState where
  lag : Nat
  first_values_rows : Tbl

/-- `Difference.transform(X, in_sample=False)` on labeled rows
(src/src/fold/transformations/difference.py:91-96): prepend the stored first
values, diff the concatenation positionally, and drop the first `lag` rows;
the surviving row labels are those of the concatenation minus its first
`lag`. -/
def differenceTransformRowsOOS (st : LabeledDifferenceState) (rows : Tbl) :
    List (Nat × Option ℚ) :=
  (((st.first_values_rows ++ rows).map Prod.fst).drop st.lag).zip
    (Difference.transform ⟨st.lag, st.first_values_rows.map Prod.snd⟩
      (rows.map Prod.snd) false)

/-- Modelled from the spec: `preprocess_X_y_with_memory` (section 4.4;
`fold/loop/memory.py` is not under `src/`) prepends the stored trailing
history rows that do not already overlap the incoming index — here, the
stored rows labeled strictly before the batch's first row. -/
def attachMemoryOOS (mem : Tbl) (batchStart : Nat) (batch : Tbl) : Tbl :=
  mem.filter (fun r => decide (r.1 < batchStart)) ++ batch

/-- Embedding of `_backtest_on_window` (src/src/fold/loop/common.py:595-628)
specialised to a trained single `Difference` leaf: the test slice is extended
backwards by the pipeline's maximum memory size (`_get_maximum_memory_size`
of a `Difference` leaf is its declared `memory_size = lag`,
src/src/fold/transformations/difference.py:60-64); the leaf processes the
extended batch at `stage=update_online_only` — for this minibatch-mode leaf
that is a pure `transform(in_sample=False)` with memory attached and no fit
or update (modelled from the spec, `process_minibatch.py` being absent from
`src/`) — and the result is re-sliced to start exactly at
`test_window_start`.  `ts - overlap` is Nat subtraction, matching
`max(split.test_window_start - overlap, 0)`. -/
def backtestDifferenceOnWindow (st : LabeledDifferenceState) (mem : Tbl)
    (ts te : Nat) (X : Tbl) : List (Nat × Option ℚ) :=
  let overlap := st.lag
  let tws := ts - overlap
  let X_test := ilocSlice X tws te
  let result := differenceTransformRowsOOS st (attachMemoryOOS mem tws X_test)
  locFrom result ts

/-- The dataset of the concrete scenario: 1000 rows labeled 0..999 with the
monotonically increasing integer values 0..999. -/
def X1000 : Tbl := (List.range 1000).map fun i => (i, (i : ℚ))

theorem ilocSlice_X1000_getElem? (a b j : Nat) (hb : b ≤ 1000) (hj : j < b - a) :
    (ilocSlice X1000 a b)[j]? = some (a + j, ((a + j : Nat) : ℚ)) := by
  unfold ilocSlice X1000
  rw [List.getElem?_take, if_pos hj, List.getElem?_drop, List.getElem?_map,
    List.getElem?_range (by omega)]
  rfl

theorem ilocSlice_X1000_length (a b : Nat) :
    (ilocSlice X1000 a b).length = min (b - a) (1000 - a) := by
  simp [ilocSlice, X1000]

theorem difference_transform_oos (st : DifferenceState) (X : List ℚ) :
    Difference.transform st X false =
      (diffSeries st.lag (st.first_values_X ++ X)).drop st.lag := by
  simp [Difference.transform]

theorem diffSeries_getElem? (lag : Nat) (X : List ℚ) (p : Nat) (hp : p < X.length) :
    (diffSeries lag X)[p]? =
      some (if p < lag then none else some (X.getD p 0 - X.getD (p - lag) 0)) := by
  unfold diffSeries
  rw [List.getElem?_map, List.getElem?_range hp]
  rfl

theorem diffSeries_length (lag : Nat) (X : List ℚ) :
    (diffSeries lag X).length = X.length := by
  simp [diffSeries]

/-- C3: the concrete scenario.  A single-step `Difference` leaf (lag 1,
`memory_size = 1`) trained on the monotonically increasing integer series
0..999 (so its stored first-values frame is a single row, and some trailing
rows may sit in memory) and backtested through `_backtest_on_window` yields
`1` at every out-of-sample prediction row of every test window: the test
slice is extended backwards by the memory size, `transform(in_sample=False)`
differences the extended batch, and the re-slice at `test_window_start`
drops exactly the warm-up row. -/
theorem difference_backtest_all_ones (fvlabel : Nat) (fvval : ℚ) (mem : Tbl)
    (ts te : Nat) (h1 : 1 ≤ ts) (h2 : ts ≤ te) (h3 : te ≤ 1000) :
    ∀ r ∈ backtestDifferenceOnWindow ⟨1, [(fvlabel, fvval)]⟩ mem ts te X1000,
      r.2 = some 1 := by
  intro r hr
  simp only [backtestDifferenceOnWindow, differenceTransformRowsOOS,
    attachMemoryOOS, locFrom, difference_transform_oos, List.map_append,
    List.map_cons, List.map_nil, List.singleton_append, List.drop_succ_cons,
    List.drop_zero] at hr
  obtain ⟨hmem, hts'⟩ := List.mem_filter.mp hr
  have hts : ts ≤ r.1 := of_decide_eq_true hts'
  obtain ⟨i, hi, hri⟩ := List.mem_iff_getElem.mp hmem
  rw [List.length_zip] at hi
  rw [List.getElem_zip] at hri
  have hBlen : (ilocSlice X1000 (ts - 1) te).length = te - (ts - 1) := by
    rw [ilocSlice_X1000_length]
    omega
  have hLlen : (List.map Prod.fst (List.filter (fun p => decide (p.1 < ts - 1)) mem) ++
      List.map Prod.fst (ilocSlice X1000 (ts - 1) te)).length =
      (List.filter (fun p => decide (p.1 < ts - 1)) mem).length +
        (ilocSlice X1000 (ts - 1) te).length := by
    simp
  have hilt : i < (List.filter (fun p => decide (p.1 < ts - 1)) mem).length +
      (ilocSlice X1000 (ts - 1) te).length := by
    rw [hLlen] at hi
    omega
  have hLbound : i < (List.map Prod.fst (List.filter (fun p => decide (p.1 < ts - 1)) mem) ++
      List.map Prod.fst (ilocSlice X1000 (ts - 1) te)).length := by
    rw [hLlen]
    omega
  have hr1 : r.1 = (List.map Prod.fst (List.filter (fun p => decide (p.1 < ts - 1)) mem) ++
      List.map Prod.fst (ilocSlice X1000 (ts - 1) te)).get ⟨i, hLbound⟩ := by
    rw [← hri]
    rfl
  by_cases hcase : i < (List.filter (fun p => decide (p.1 < ts - 1)) mem).length
  · -- a prepended memory row: its label is < ts - 1, contradicting the loc slice
    exfalso
    have hlab : (List.map Prod.fst (List.filter (fun p => decide (p.1 < ts - 1)) mem) ++
        List.map Prod.fst (ilocSlice X1000 (ts - 1) te))[i]? =
        some (((List.filter (fun p => decide (p.1 < ts - 1)) mem).get ⟨i, hcase⟩)).1 := by
      rw [List.getElem?_append, if_pos (by simpa using hcase)]
      rw [List.getElem?_map]
      rw [List.getElem?_eq_getElem hcase]
      rfl
    have hval : r.1 = ((List.filter (fun p => decide (p.1 < ts - 1)) mem).get ⟨i, hcase⟩).1 := by
      rw [hr1]
      exact Option.some.inj
        (((List.getElem?_eq_getElem hLbound).symm).trans hlab)
    have hin : (List.filter (fun p => decide (p.1 < ts - 1)) mem).get ⟨i, hcase⟩ ∈
        List.filter (fun p => decide (p.1 < ts - 1)) mem := List.getElem_mem hcase
    have hlt : ((List.filter (fun p => decide (p.1 < ts - 1)) mem).get ⟨i, hcase⟩).1 < ts - 1 :=
      of_decide_eq_true (List.mem_filter.mp hin).2
    omega
  · -- a genuine test-window row
    have hik : i - (List.filter (fun p => decide (p.1 < ts - 1)) mem).length <
        (ilocSlice X1000 (ts - 1) te).length := by omega
    have hBi : ∀ n, (List.filter (fun p => decide (p.1 < ts - 1)) mem).length ≤ n →
        n < (List.filter (fun p => decide (p.1 < ts - 1)) mem).length +
          (ilocSlice X1000 (ts - 1) te).length →
        (ilocSlice X1000 (ts - 1) te)[n -
          (List.filter (fun p => decide (p.1 < ts - 1)) mem).length]? =
        some (ts - 1 + (n - (List.filter (fun p => decide (p.1 < ts - 1)) mem).length),
          ((ts - 1 + (n - (List.filter (fun p => decide (p.1 < ts - 1)) mem).length) : Nat) : ℚ)) := by
      intro n hn1 hn2
      exact ilocSlice_X1000_getElem? (ts - 1) te _ h3 (by omega)
    have hlab : (List.map Prod.fst (List.filter (fun p => decide (p.1 < ts - 1)) mem) ++
        List.map Prod.fst (ilocSlice X1000 (ts - 1) te))[i]? =
        some (ts - 1 + (i - (List.filter (fun p => decide (p.1 < ts - 1)) mem).length)) := by
      rw [List.getElem?_append_right (by simpa using hcase)]
      rw [List.getElem?_map]
      simp only [List.length_map]
      rw [hBi i (by omega) (by omega)]
      rfl
    have hr1a : r.1 = ts - 1 + (i - (List.filter (fun p => decide (p.1 < ts - 1)) mem).length) := by
      rw [hr1]
      exact Option.some.inj
        (((List.getElem?_eq_getElem hLbound).symm).trans hlab)
    have hj1 : 1 ≤ i - (List.filter (fun p => decide (p.1 < ts - 1)) mem).length := by
      omega
    -- the value series seen by the leaf
    have hw : ∀ n, (List.filter (fun p => decide (p.1 < ts - 1)) mem).length ≤ n →
        n < (List.filter (fun p => decide (p.1 < ts - 1)) mem).length +
          (ilocSlice X1000 (ts - 1) te).length →
        (List.map Prod.snd (List.filter (fun p => decide (p.1 < ts - 1)) mem) ++
          List.map Prod.snd (ilocSlice X1000 (ts - 1) te)).getD n 0 =
          ((ts - 1 + (n - (List.filter (fun p => decide (p.1 < ts - 1)) mem).length) : Nat) : ℚ) := by
      intro n hn1 hn2
      rw [List.getD_eq_getElem?_getD]
      rw [List.getElem?_append_right (by simpa using hn1)]
      rw [List.getElem?_map]
      simp only [List.length_map]
      rw [hBi n hn1 hn2]
      rfl
    have hwlen : (fvval :: (List.map Prod.snd (List.filter (fun p => decide (p.1 < ts - 1)) mem) ++
        List.map Prod.snd (ilocSlice X1000 (ts - 1) te))).length =
        1 + ((List.filter (fun p => decide (p.1 < ts - 1)) mem).length +
          (ilocSlice X1000 (ts - 1) te).length) := by
      simp
      omega
    have hD : ((diffSeries 1 (fvval ::
        (List.map Prod.snd (List.filter (fun p => decide (p.1 < ts - 1)) mem) ++
          List.map Prod.snd (ilocSlice X1000 (ts - 1) te)))).drop 1)[i]? =
        some (some (((ts - 1 + (i - (List.filter (fun p => decide (p.1 < ts - 1)) mem).length) : Nat) : ℚ) -
          ((ts - 1 + (i - (List.filter (fun p => decide (p.1 < ts - 1)) mem).length - 1) : Nat) : ℚ))) := by
      rw [List.getElem?_drop]
      rw [diffSeries_getElem? 1 _ (1 + i) (by rw [hwlen]; omega)]
      rw [if_neg (by omega)]
      have e1 : (fvval :: (List.map Prod.snd (List.filter (fun p => decide (p.1 < ts - 1)) mem) ++
          List.map Prod.snd (ilocSlice X1000 (ts - 1) te))).getD (1 + i) 0 =
          ((ts - 1 + (i - (List.filter (fun p => decide (p.1 < ts - 1)) mem).length) : Nat) : ℚ) := by
        rw [show 1 + i = i + 1 by omega]
        rw [List.getD_cons_succ]
        exact hw i (by omega) (by omega)
      have e2 : (fvval :: (List.map Prod.snd (List.filter (fun p => decide (p.1 < ts - 1)) mem) ++
          List.map Prod.snd (ilocSlice X1000 (ts - 1) te))).getD (1 + i - 1) 0 =
          ((ts - 1 + (i - (List.filter (fun p => decide (p.1 < ts - 1)) mem).length - 1) : Nat) : ℚ) := by
        rw [show 1 + i - 1 = (i - 1) + 1 by omega]
        rw [List.getD_cons_succ]
        have e22 := hw (i - 1) (by omega) (by omega)
        rw [show i - 1 - (List.filter (fun p => decide (p.1 < ts - 1)) mem).length =
          i - (List.filter (fun p => decide (p.1 < ts - 1)) mem).length - 1 by omega] at e22
        exact e22
      rw [e1, e2]
    have hDbound : i < ((diffSeries 1 (fvval ::
        (List.map Prod.snd (List.filter (fun p => decide (p.1 < ts - 1)) mem) ++
          List.map Prod.snd (ilocSlice X1000 (ts - 1) te)))).drop 1).length := by
      rw [List.length_drop, diffSeries_length, hwlen]
      omega
    have hr2 : r.2 =
        some (((ts - 1 + (i - (List.filter (fun p => decide (p.1 < ts - 1)) mem).length) : Nat) : ℚ) -
          ((ts - 1 + (i - (List.filter (fun p => decide (p.1 < ts - 1)) mem).length - 1) : Nat) : ℚ)) := by
      rw [← hri]
      exact Option.some.inj
        (((List.getElem?_eq_getElem hDbound).symm).trans hD)
    rw [hr2]
    congr 1
    rw [show ts - 1 + (i - (List.filter (fun p => decide (p.1 < ts - 1)) mem).length) =
      (ts - 1 + (i - (List.filter (fun p => decide (p.1 < ts - 1)) mem).length - 1)) + 1 by omega]
    push_cast
    ring

/-- Witness for C3's theorem: window `[ts, te) = [400, 600)`, an arbitrary
stored first value and one stored memory row. -/
theorem difference_backtest_all_ones_witness :
    (1 ≤ 400 ∧ 400 ≤ 600 ∧ 600 ≤ 1000) ∧
    ∀ r ∈ backtestDifferenceOnWindow ⟨1, [(399, (399 : ℚ))]⟩ [(399, (399 : ℚ))]
      400 600 X1000, r.2 = some 1 :=
  ⟨⟨by norm_num, by norm_num, by norm_num⟩,
    difference_backtest_all_ones 399 399 [(399, (399 : ℚ))] 400 600
      (by norm_num) (by norm_num) (by norm_num)⟩

end DriftSpec
